import Mathlib

/-!
Shallow embedding of the CogWSL cognitive core
(`src/shared/inc/cognitive.h`, `src/shared/cognitive/cognitive.cpp`).

Modelling conventions:
* C++ `float` scalars (truth value, confidence, attention) are embedded as `ℚ`.
* Atoms are addressed by their numeric id; the C++ `shared_ptr<Atom>` link
  lists become lists of ids that are dereferenced through the owning
  `AtomSpace` (the arena view of the same object graph).  The global
  `Atom::s_nextId` counter becomes the per-space `nextId` field.
* The two synchronized hash maps (`m_atoms`, `m_atomsByName`) hold the same
  node set, so they are embedded as one insertion-ordered list of atoms;
  the unspecified `unordered_map` iteration order is determinized to
  insertion order.
* Concurrency is out of scope: each C++ member function becomes a pure
  state-passing function.
-/

namespace Cognitive

/-- The closed atom-type tag set of `Atom::Type`. -/
inductive AtomType where
  | Concept
  | Link
  | Process
  | Agent
  | Rule
  | Goal
  | Memory
deriving DecidableEq, Repr

/-- Embedding of the `Atom` class fields (timestamps are dropped: no claim
mentions them). -/
structure Atom where
  id : Nat
  type : AtomType
  name : String
  truthValue : ℚ
  confidence : ℚ
  attention : ℚ
  outgoingLinks : List Nat
  incomingLinks : List Nat
deriving DecidableEq, Repr

/-- The `Atom` constructor: stores truth and confidence unclamped and
initializes attention to `0.5`. -/
def mkAtom (id : Nat) (type : AtomType) (name : String)
    (truthValue confidence : ℚ) : Atom :=
  { id := id
    type := type
    name := name
    truthValue := truthValue
    confidence := confidence
    attention := 1/2
    outgoingLinks := []
    incomingLinks := [] }

/-- `Atom::SetTruthValue`: clamps both scalars to `[0,1]`. -/
def Atom.SetTruthValue (a : Atom) (truth confidence : ℚ) : Atom :=
  { a with
    truthValue := min (max truth 0) 1
    confidence := min (max confidence 0) 1 }

/-- `Atom::SetAttention`: stores the caller-supplied value unchanged. -/
def Atom.SetAttention (a : Atom) (attention : ℚ) : Atom :=
  { a with attention := attention }

/-- `Atom::AddOutgoingLink`: no-op when the target is already present. -/
def Atom.AddOutgoingLink (a : Atom) (target : Nat) : Atom :=
  if target ∈ a.outgoingLinks then a
  else { a with outgoingLinks := a.outgoingLinks ++ [target] }

/-- `Atom::AddIncomingLink`: no-op when the source is already present. -/
def Atom.AddIncomingLink (a : Atom) (source : Nat) : Atom :=
  if source ∈ a.incomingLinks then a
  else { a with incomingLinks := a.incomingLinks ++ [source] }

/-- Embedding of `AtomSpace`: one insertion-ordered node list plus the id
counter. -/
structure AtomSpace where
  atoms : List Atom
  nextId : Nat
deriving DecidableEq, Repr

/-- `AtomSpace::FindAtom`: point lookup by name. -/
def AtomSpace.FindAtom (s : AtomSpace) (name : String) : Option Atom :=
  s.atoms.find? (fun a => a.name == name)

/-- `AtomSpace::GetAtom`: point lookup by id. -/
def AtomSpace.GetAtom (s : AtomSpace) (id : Nat) : Option Atom :=
  s.atoms.find? (fun a => a.id == id)

/-- `AtomSpace::CreateAtom`: get-if-exists by name, otherwise construct and
register a fresh atom. -/
def AtomSpace.CreateAtom (s : AtomSpace) (type : AtomType) (name : String)
    (truthValue confidence : ℚ) : Atom × AtomSpace :=
  match s.FindAtom name with
  | some existing => (existing, s)
  | none =>
    let a := mkAtom s.nextId type name truthValue confidence
    (a, { atoms := s.atoms ++ [a], nextId := s.nextId + 1 })

/-- `AtomSpace::FindAtomsByType`: snapshot of all atoms of one type. -/
def AtomSpace.FindAtomsByType (s : AtomSpace) (type : AtomType) : List Atom :=
  s.atoms.filter (fun a => a.type == type)

/-- `AtomSpace::Query`: snapshot of all atoms satisfying a predicate. -/
def AtomSpace.Query (s : AtomSpace) (p : Atom → Bool) : List Atom :=
  s.atoms.filter p

/-- `AtomSpace::GetAtomCount` (`m_atoms.size()`). -/
def AtomSpace.GetAtomCount (s : AtomSpace) : Nat :=
  s.atoms.length

/-- `AtomSpace::GetAtomCountByType`. -/
def AtomSpace.GetAtomCountByType (s : AtomSpace) (type : AtomType) : Nat :=
  (s.atoms.filter (fun a => a.type == type)).length

/-- In-place mutation of one atom through its owning space: the embedding of
writing through a `shared_ptr<Atom>` held in the space's table. -/
def AtomSpace.ModifyAtom (s : AtomSpace) (id : Nat) (f : Atom → Atom) : AtomSpace :=
  { s with atoms := s.atoms.map (fun a => if a.id = id then f a else a) }

/-- The `AtomSpace` constructor: seeds the three fundamental system atoms. -/
def AtomSpace.init : AtomSpace :=
  let s0 : AtomSpace := { atoms := [], nextId := 1 }
  let s1 := (s0.CreateAtom AtomType.Concept "Self" 1 1).2
  let s2 := (s1.CreateAtom AtomType.Concept "System" 1 1).2
  (s2.CreateAtom AtomType.Concept "WSL" 1 1).2

/-- The spreading substep of `AtomSpace::UpdateAttentionValues`: add
`spread` to each target of the given outgoing-link list, reading the
target's live attention. -/
def spreadFold (s : AtomSpace) (targets : List Nat) (spread : ℚ) : AtomSpace :=
  targets.foldl
    (fun st tid => st.ModifyAtom tid
      (fun b => b.SetAttention (b.attention + spread)))
    s

/-- One loop iteration of `AtomSpace::UpdateAttentionValues` for the atom
with the given id: read the current attention, spread a tenth of it across
the outgoing links, then overwrite the atom's own attention with the
floored decayed value computed from the attention read at the start. -/
def attentionStep (s : AtomSpace) (id : Nat) : AtomSpace :=
  match s.GetAtom id with
  | none => s
  | some a =>
    let currentAttention := a.attention
    let newAttention := currentAttention * (95/100)
    let s1 :=
      if a.outgoingLinks.isEmpty then s
      else
        spreadFold s a.outgoingLinks
          (currentAttention * (1/10) / (a.outgoingLinks.length : ℚ))
    s1.ModifyAtom id (fun b => b.SetAttention (max (1/100) newAttention))

/-- `AtomSpace::UpdateAttentionValues`: run the decay/spread iteration over
every atom, in the determinized (insertion) table order. -/
def AtomSpace.UpdateAttentionValues (s : AtomSpace) : AtomSpace :=
  (s.atoms.map Atom.id).foldl attentionStep s

/-- The `CognitiveAgent::State` enumeration. -/
inductive AgentState where
  | Inactive
  | Active
  | Learning
  | Planning
  | Executing
  | SelfModifying
  | Error
deriving DecidableEq, Repr

/-- Embedding of the `CognitiveAgent` fields.  The goal and memory lists
hold atom ids (the C++ lists hold shared references into the space). -/
structure CognitiveAgent where
  name : String
  state : AgentState
  shouldStop : Bool
  goals : List Nat
  memories : List Nat
deriving DecidableEq, Repr

/-- The `CognitiveAgent` constructor: registers (or re-uses) the agent's
self-concept atom `"Agent:" ++ name` and raises that atom's attention
to `1.0`. -/
def CognitiveAgent.construct (s : AtomSpace) (name : String) :
    AtomSpace × CognitiveAgent :=
  let p := s.CreateAtom AtomType.Agent ("Agent:" ++ name) 1 1
  let s' := p.2.ModifyAtom p.1.id (fun a => a.SetAttention 1)
  (s', { name := name
         state := AgentState.Inactive
         shouldStop := false
         goals := []
         memories := [] })

/-- `CognitiveAgent::Resume`: reactivate only an inactive, non-stopped
agent. -/
def CognitiveAgent.Resume (ag : CognitiveAgent) : CognitiveAgent :=
  if ag.state == AgentState.Inactive && !ag.shouldStop then
    { ag with state := AgentState.Active }
  else ag

/-- `CognitiveAgent::AddGoal`: append only a Goal-typed atom. -/
def CognitiveAgent.AddGoal (s : AtomSpace) (ag : CognitiveAgent) (goalId : Nat) :
    CognitiveAgent :=
  match s.GetAtom goalId with
  | some g =>
    if g.type == AtomType.Goal then { ag with goals := ag.goals ++ [goalId] }
    else ag
  | none => ag

/-- `CognitiveAgent::ReceiveMessage`: materialize the message as a Memory
atom and append its reference to the agent's memory list (the append is
unconditional, so a name-deduplicated atom can appear repeatedly). -/
def CognitiveAgent.ReceiveMessage (s : AtomSpace) (ag : CognitiveAgent)
    (fromAgent message : String) : AtomSpace × CognitiveAgent :=
  let p := s.CreateAtom AtomType.Memory
    ("Message:" ++ fromAgent ++ ":" ++ message) 1 (9/10)
  (p.2, { ag with memories := ag.memories ++ [p.1.id] })

/-- The loop body of `CognitiveAgent::Perceive`: record one perceived atom
as a `"Perceived:"`-prefixed Memory atom carrying its truth/confidence and
append the reference to the agent's memory list. -/
def perceiveStep (p : AtomSpace × CognitiveAgent) (a : Atom) :
    AtomSpace × CognitiveAgent :=
  let q := p.1.CreateAtom AtomType.Memory ("Perceived:" ++ a.name)
    a.truthValue a.confidence
  (q.2, { p.2 with memories := p.2.memories ++ [q.1.id] })

/-- `CognitiveAgent::Perceive`: set the state back to `Active`, then turn
every atom with attention above `0.7` into a `"Perceived:"`-prefixed
Memory atom appended to the agent's memory list. -/
def CognitiveAgent.Perceive (s : AtomSpace) (ag : CognitiveAgent) :
    AtomSpace × CognitiveAgent :=
  let ag1 := { ag with state := AgentState.Active }
  let highAttention := s.Query (fun a => a.attention > 7/10)
  highAttention.foldl perceiveStep (s, ag1)

/-- Substring containment on character lists, the embedding of
`std::string::find(needle) != npos`. -/
def strContains (hay needle : List Char) : Bool :=
  match hay with
  | [] => needle.isEmpty
  | _ :: rest => needle.isPrefixOf hay || strContains rest needle

/-- One outer-loop iteration of `CognitiveAgent::Reason` for a single
memory reference: drop the first 9 characters of the memory's name
(the `substr(9)` intended to strip the `"Perceived:"` tag), snapshot the
Concept atoms whose name contains that remainder, and blend each match's
truth toward the memory's truth while inflating its confidence by 10%
(both re-clamped by `SetTruthValue`). -/
def reasonStep (s : AtomSpace) (memoryId : Nat) : AtomSpace :=
  match s.GetAtom memoryId with
  | none => s
  | some memory =>
    let remainder := memory.name.drop 9
    let related := s.Query (fun a =>
      a.type == AtomType.Concept && strContains a.name.data remainder.data)
    related.foldl
      (fun st rel => st.ModifyAtom rel.id
        (fun b => b.SetTruthValue ((b.truthValue + memory.truthValue) / 2)
          (b.confidence * (11/10))))
      s

/-- `CognitiveAgent::Reason`: run `reasonStep` over the memory list. -/
def CognitiveAgent.Reason (s : AtomSpace) (ag : CognitiveAgent) : AtomSpace :=
  ag.memories.foldl reasonStep s

/-- `CognitiveAgent::Plan`: for each goal reference whose live truth is
below `0.8`, create-or-get the `"Plan:"`-prefixed Process atom at truth
`0.5` / confidence `0.8` and add it to the goal's outgoing links (the
plan's incoming links are not touched). -/
def CognitiveAgent.Plan (s : AtomSpace) (ag : CognitiveAgent) : AtomSpace :=
  ag.goals.foldl
    (fun st gid =>
      match st.GetAtom gid with
      | none => st
      | some goal =>
        if goal.truthValue < 8/10 then
          let p := st.CreateAtom AtomType.Process ("Plan:" ++ goal.name)
            (1/2) (8/10)
          p.2.ModifyAtom gid (fun g => g.AddOutgoingLink p.1.id)
        else st)
    s

/-- One iteration of the `CognitiveAgent::Act` loop for a single Process
atom: when its live name starts with `"Plan:"` and its live truth exceeds
`0.4`, bump the plan's truth by `0.1`, then bump by `0.05` the truth of
every Goal-typed atom in the plan's incoming-link list. -/
def actStep (s : AtomSpace) (planId : Nat) : AtomSpace :=
  match s.GetAtom planId with
  | none => s
  | some plan =>
    if plan.name.take 5 == "Plan:" && plan.truthValue > 4/10 then
      let s1 := s.ModifyAtom planId
        (fun p => p.SetTruthValue (p.truthValue + 1/10) p.confidence)
      plan.incomingLinks.foldl
        (fun st iid =>
          match st.GetAtom iid with
          | none => st
          | some incoming =>
            if incoming.type == AtomType.Goal then
              st.ModifyAtom iid
                (fun g => g.SetTruthValue (g.truthValue + 1/20) g.confidence)
            else st)
        s1
    else s

/-- `CognitiveAgent::Act`: scan the Process atoms (snapshot) and execute
`actStep` on each. -/
def CognitiveAgent.Act (s : AtomSpace) : AtomSpace :=
  ((s.FindAtomsByType AtomType.Process).map Atom.id).foldl actStep s

/-- `CognitiveAgent::Learn`: set the state to `Learning`, raise by `0.01`
(capped at 1) the confidence of every Concept atom with attention above
`0.5`, and evict the 100 oldest memories when the list holds more than
1000 entries. -/
def CognitiveAgent.Learn (s : AtomSpace) (ag : CognitiveAgent) :
    AtomSpace × CognitiveAgent :=
  let ag1 := { ag with state := AgentState.Learning }
  let s1 := ((s.FindAtomsByType AtomType.Concept).map Atom.id).foldl
    (fun st cid =>
      match st.GetAtom cid with
      | none => st
      | some c =>
        if c.attention > 1/2 then
          st.ModifyAtom cid
            (fun b => b.SetTruthValue b.truthValue (min 1 (b.confidence + 1/100)))
        else st)
    s
  let ag2 :=
    if ag1.memories.length > 1000 then
      { ag1 with memories := ag1.memories.drop 100 }
    else ag1
  (s1, ag2)

/-- `CognitiveAgent::SelfModify`: set the state to `SelfModifying`, then
promote every `"Plan:"`-named Process atom with truth above `0.8` into a
`"Rule:"`-prefixed Rule atom linked from the plan. -/
def CognitiveAgent.SelfModify (s : AtomSpace) (ag : CognitiveAgent) :
    AtomSpace × CognitiveAgent :=
  let ag1 := { ag with state := AgentState.SelfModifying }
  let successfulPlans := s.Query (fun a =>
    a.type == AtomType.Process && a.name.take 5 == "Plan:" &&
      a.truthValue > 8/10)
  let s' := successfulPlans.foldl
    (fun st plan =>
      let p := st.CreateAtom AtomType.Rule ("Rule:" ++ plan.name)
        plan.truthValue plan.confidence
      p.2.ModifyAtom plan.id (fun q => q.AddOutgoingLink p.1.id))
    s
  (s', ag1)

/-- Embedding of the `CognitiveSystem` fields (start timestamp dropped). -/
structure CognitiveSystem where
  space : AtomSpace
  agents : List CognitiveAgent
  configuration : List (String × String)
  initialized : Bool
deriving DecidableEq, Repr

/-- `CognitiveSystem::SetConfiguration`. -/
def CognitiveSystem.SetConfiguration (sys : CognitiveSystem)
    (key value : String) : CognitiveSystem :=
  { sys with configuration :=
      (sys.configuration.filter (fun kv => kv.1 != key)) ++ [(key, value)] }

/-- `CognitiveSystem::Initialize`: idempotent seeding of the system-level
atoms and default configuration. -/
def CognitiveSystem.Initialize (sys : CognitiveSystem) : CognitiveSystem :=
  if sys.initialized then sys
  else
    let s1 := (sys.space.CreateAtom AtomType.Concept "CognitiveSystem" 1 1).2
    let s2 := (s1.CreateAtom AtomType.Goal "SystemStability" 1 1).2
    let s3 := (s2.CreateAtom AtomType.Goal "OptimizePerformance" (8/10) (9/10)).2
    let sys1 := { sys with space := s3, initialized := true }
    let sys2 := sys1.SetConfiguration "max_agents" "10"
    let sys3 := sys2.SetConfiguration "attention_update_interval" "1000"
    sys3.SetConfiguration "self_modification_probability" "0.01"

/-- `CognitiveSystem::CreateAgent`: get-if-exists by agent name; on first
creation also attach the default `"AgentGoal:"` goal atom. -/
def CognitiveSystem.CreateAgent (sys : CognitiveSystem) (name : String) :
    CognitiveSystem :=
  if sys.agents.any (fun a => a.name == name) then sys
  else
    let p := CognitiveAgent.construct sys.space name
    let q := p.1.CreateAtom AtomType.Goal ("AgentGoal:" ++ name) (1/2) (8/10)
    let ag := CognitiveAgent.AddGoal q.2 p.2 q.1.id
    { sys with space := q.2, agents := sys.agents ++ [ag] }

/-- The active-state test used by `CognitiveSystem::GetStatistics` when
counting `activeAgents`. -/
def isActiveState (st : AgentState) : Bool :=
  st == AgentState.Active || st == AgentState.Learning ||
    st == AgentState.Planning || st == AgentState.Executing ||
    st == AgentState.SelfModifying

/-- The `totalAgents` statistic. -/
def CognitiveSystem.totalAgents (sys : CognitiveSystem) : Nat :=
  sys.agents.length

/-- The `activeAgents` statistic. -/
def CognitiveSystem.activeAgents (sys : CognitiveSystem) : Nat :=
  (sys.agents.filter (fun a => isActiveState a.state)).length

/-- The inner loop of `CognitiveSystem::UpdateSystem`: resume the first
agent in `Inactive` state, then break. -/
def resumeFirstInactive (ags : List CognitiveAgent) : List CognitiveAgent :=
  match ags with
  | [] => []
  | a :: rest =>
    if a.state == AgentState.Inactive then a.Resume :: rest
    else a :: resumeFirstInactive rest

/-- One iteration of the goal loop in `CognitiveSystem::UpdateSystem`: for
the goal named `"OptimizePerformance"`, read fresh statistics and — under
the integer-division comparison `activeAgents < totalAgents / 2` — resume
the first inactive agent. -/
def updateSystemStep (s : CognitiveSystem) (g : Atom) : CognitiveSystem :=
  if g.name == "OptimizePerformance" then
    if s.activeAgents < s.totalAgents / 2 then
      { s with agents := resumeFirstInactive s.agents }
    else s
  else s

/-- `CognitiveSystem::UpdateSystem`: when initialized, run the attention
pass, then run the `"OptimizePerformance"` self-tuning step over every
Goal-typed atom. -/
def CognitiveSystem.UpdateSystem (sys : CognitiveSystem) : CognitiveSystem :=
  if !sys.initialized then sys
  else
    let sp := sys.space.UpdateAttentionValues
    let sys1 := { sys with space := sp }
    let systemGoals := sp.FindAtomsByType AtomType.Goal
    systemGoals.foldl updateSystemStep sys1

/-- One deterministic body of `CognitiveAgent::ProcessingLoop` (the
probabilistic `SelfModify` draw excluded): Perceive, Reason, Plan, Act,
Learn in strict sequence.  `Reason`, `Plan` and `Act` neither read nor
write the agent's state field, so the agent value entering `Plan` and
`Act` is exactly the one `Perceive` produced. -/
def cognitiveCycle (s : AtomSpace) (ag : CognitiveAgent) :
    AtomSpace × CognitiveAgent :=
  let p1 := CognitiveAgent.Perceive s ag
  let s2 := CognitiveAgent.Reason p1.1 p1.2
  let s3 := CognitiveAgent.Plan s2 p1.2
  let s4 := CognitiveAgent.Act s3
  CognitiveAgent.Learn s4 p1.2

/-- Test-scenario driver: one `ReceiveMessage("System", "ping")` delivery,
iterated below to populate an agent's memory list. -/
def msgPump (p : AtomSpace × CognitiveAgent) : AtomSpace × CognitiveAgent :=
  CognitiveAgent.ReceiveMessage p.1 p.2 "System" "ping"

/-- Test-scenario value: an agent holding 1001 memory references. -/
def agentWithManyMemories : CognitiveAgent :=
  { name := "A"
    state := AgentState.Inactive
    shouldStop := false
    goals := []
    memories := List.replicate 1001 0 }

/-- The identity-carrying projection of an atom: everything except the
three mutable scalars. -/
def Atom.skel (a : Atom) :
    Nat × AtomType × String × List Nat × List Nat :=
  (a.id, a.type, a.name, a.outgoingLinks, a.incomingLinks)

/-- Pointwise description of one `attentionStep` iteration with source
atom `aj` processed under id `j` (derived from `attentionStep`, proved
equal to it below): the processed atom's attention becomes the floored
decay of the attention read at iteration start, every other atom receives
the spread once per occurrence of its id in `aj`'s outgoing list, and a
self-link's spread is overwritten by the final store. -/
def stepFun (aj : Atom) (j : Nat) (a : Atom) : Atom :=
  if a.id = j then
    a.SetAttention (max (1/100) (aj.attention * (95/100)))
  else
    a.SetAttention (a.attention
      + aj.attention * (1/10) / (aj.outgoingLinks.length : ℚ)
          * (aj.outgoingLinks.count a.id))

/-- Test-scenario atom: spread source with attention `0.1` linked to
atom 2. -/
def atomA : Atom :=
  { id := 1
    type := AtomType.Concept
    name := "A"
    truthValue := 1
    confidence := 1
    attention := 1/10
    outgoingLinks := [2]
    incomingLinks := [] }

/-- Test-scenario atom: spread target with attention `1`. -/
def atomB : Atom :=
  { id := 2
    type := AtomType.Concept
    name := "B"
    truthValue := 1
    confidence := 1
    attention := 1
    outgoingLinks := []
    incomingLinks := [] }

/-- Test-scenario space holding the linked pair `atomA → atomB`. -/
def spaceAB : AtomSpace :=
  { atoms := [atomA, atomB], nextId := 3 }

/-- Test-scenario atom: a Concept whose name contains the colon-carrying
remainder `":WSL"` left by `substr(9)`. -/
def conceptC6 : Atom :=
  { id := 5
    type := AtomType.Concept
    name := "Sys:WSL"
    truthValue := 1/2
    confidence := 1/2
    attention := 1/2
    outgoingLinks := []
    incomingLinks := [] }

/-- Test-scenario atom: a perception memory named `"Perceived:WSL"`. -/
def memoryC6 : Atom :=
  { id := 77
    type := AtomType.Memory
    name := "Perceived:WSL"
    truthValue := 1
    confidence := 9/10
    attention := 1/2
    outgoingLinks := []
    incomingLinks := [] }

/-- Test-scenario space for the Reason stage. -/
def spaceC6 : AtomSpace :=
  { atoms := [conceptC6, memoryC6], nextId := 100 }

/-- Test-scenario space: the initial space plus a Goal atom `"G"` (id 4)
with the given truth and confidence. -/
def spaceWithGoal (v c : ℚ) : AtomSpace :=
  ((AtomSpace.init).CreateAtom AtomType.Goal "G" v c).2

/-- Test-scenario agent whose goal list references the Goal atom id 4. -/
def agentWithGoal : CognitiveAgent :=
  { name := "A"
    state := AgentState.Active
    shouldStop := false
    goals := [4]
    memories := [] }

/-- Test-scenario run: one Plan stage followed by one Act stage on the
single-goal space. -/
def planActSpace (v c : ℚ) : AtomSpace :=
  CognitiveAgent.Act (CognitiveAgent.Plan (spaceWithGoal v c) agentWithGoal)

/-- Test-scenario agent in a given state with nothing else attached. -/
def plainAgent (nm : String) (st : AgentState) : CognitiveAgent :=
  { name := nm
    state := st
    shouldStop := false
    goals := []
    memories := [] }

/-- Test-scenario system: an initialized registry holding the
`"OptimizePerformance"` goal and three agents of which exactly one is
active. -/
def sysC7 : CognitiveSystem :=
  { space := (AtomSpace.init.CreateAtom AtomType.Goal "OptimizePerformance"
      (8/10) (9/10)).2
    agents := [plainAgent "a1" AgentState.Active,
               plainAgent "a2" AgentState.Inactive,
               plainAgent "a3" AgentState.Inactive]
    configuration := []
    initialized := true }

/-! ## Helper lemmas -/

theorem foldl_perceiveStep_state (l : List Atom)
    (p : AtomSpace × CognitiveAgent) :
    (l.foldl perceiveStep p).2.state = p.2.state := by
  induction l generalizing p with
  | nil => rfl
  | cons a t ih =>
    rw [List.foldl_cons, ih]
    rfl

theorem perceive_state (s : AtomSpace) (ag : CognitiveAgent) :
    (CognitiveAgent.Perceive s ag).2.state = AgentState.Active := by
  simp only [CognitiveAgent.Perceive]
  rw [foldl_perceiveStep_state]

theorem learn_state (s : AtomSpace) (ag : CognitiveAgent) :
    (CognitiveAgent.Learn s ag).2.state = AgentState.Learning := by
  unfold CognitiveAgent.Learn
  by_cases h : ({ ag with state := AgentState.Learning } :
      CognitiveAgent).memories.length > 1000 <;> simp [h]

theorem selfModify_state (s : AtomSpace) (ag : CognitiveAgent) :
    (CognitiveAgent.SelfModify s ag).2.state = AgentState.SelfModifying := by
  simp [CognitiveAgent.SelfModify]

theorem receiveMessage_memories_length (s : AtomSpace) (ag : CognitiveAgent)
    (fromAgent message : String) :
    (CognitiveAgent.ReceiveMessage s ag fromAgent message).2.memories.length
      = ag.memories.length + 1 := by
  simp [CognitiveAgent.ReceiveMessage]

theorem msgPump_iterate_length (n : Nat) (p : AtomSpace × CognitiveAgent) :
    ((msgPump^[n]) p).2.memories.length = p.2.memories.length + n := by
  induction n generalizing p with
  | zero => rfl
  | succ k ih =>
    rw [Function.iterate_succ_apply, ih, msgPump,
      receiveMessage_memories_length]
    omega

theorem GetAtom_id {s : AtomSpace} {i : Nat} {a : Atom}
    (h : s.GetAtom i = some a) : a.id = i := by
  have := List.find?_some h
  simpa using this

theorem GetAtom_mem {s : AtomSpace} {i : Nat} {a : Atom}
    (h : s.GetAtom i = some a) : a ∈ s.atoms :=
  List.mem_of_find?_eq_some h

theorem GetAtom_ModifyAtom (s : AtomSpace) (j : Nat) (f : Atom → Atom)
    (hf : ∀ a, (f a).id = a.id) (i : Nat) :
    (s.ModifyAtom j f).GetAtom i
      = (s.GetAtom i).map (fun a => if a.id = j then f a else a) := by
  unfold AtomSpace.GetAtom AtomSpace.ModifyAtom
  rw [List.find?_map]
  have hp : ((fun a => a.id == i) ∘ fun a => if a.id = j then f a else a)
      = fun a => a.id == i := by
    funext a
    by_cases h : a.id = j <;> simp [Function.comp, h, hf]
  rw [hp]

theorem GetAtom_ModifyAtom_ne (s : AtomSpace) (j : Nat) (f : Atom → Atom)
    (hf : ∀ a, (f a).id = a.id) (i : Nat) (hij : i ≠ j) :
    (s.ModifyAtom j f).GetAtom i = s.GetAtom i := by
  rw [GetAtom_ModifyAtom s j f hf i]
  cases hsome : s.GetAtom i with
  | none => rfl
  | some a =>
    have hid : a.id = i := GetAtom_id hsome
    simp [hid, hij]

theorem GetAtom_ModifyAtom_self (s : AtomSpace) (j : Nat) (f : Atom → Atom)
    (hf : ∀ a, (f a).id = a.id) {a : Atom} (h : s.GetAtom j = some a) :
    (s.ModifyAtom j f).GetAtom j = some (f a) := by
  rw [GetAtom_ModifyAtom s j f hf j, h]
  have hid : a.id = j := GetAtom_id h
  simp [hid]

theorem mem_ModifyAtom {s : AtomSpace} {a : Atom} (j : Nat) (f : Atom → Atom)
    (ha : a ∈ s.atoms) :
    (if a.id = j then f a else a) ∈ (s.ModifyAtom j f).atoms :=
  List.mem_map_of_mem _ ha

theorem SetAttention_attention (a : Atom) (v : ℚ) :
    (a.SetAttention v).attention = v := rfl

theorem SetAttention_self (a : Atom) : a.SetAttention a.attention = a := rfl

theorem stepFun_id (aj : Atom) (j : Nat) (a : Atom) :
    (stepFun aj j a).id = a.id := by
  unfold stepFun
  split <;> rfl

theorem stepFun_skel (aj : Atom) (j : Nat) (a : Atom) :
    (stepFun aj j a).skel = a.skel := by
  unfold stepFun
  split <;> rfl

theorem stepFun_self_att (aj : Atom) (j : Nat) (a : Atom) (hid : a.id = j) :
    (stepFun aj j a).attention = max (1/100) (aj.attention * (95/100)) := by
  unfold stepFun
  rw [if_pos hid, SetAttention_attention]

theorem stepFun_other_att (aj : Atom) (j : Nat) (a : Atom)
    (hid : ¬ a.id = j) :
    (stepFun aj j a).attention = a.attention
      + aj.attention * (1/10) / (aj.outgoingLinks.length : ℚ)
          * (aj.outgoingLinks.count a.id : ℚ) := by
  unfold stepFun
  rw [if_neg hid, SetAttention_attention]

theorem find?_map_idpres (l : List Atom) (g : Atom → Atom)
    (hg : ∀ a, (g a).id = a.id) (i : Nat) :
    (l.map g).find? (fun a => a.id == i)
      = (l.find? (fun a => a.id == i)).map g := by
  rw [List.find?_map]
  have hp : ((fun a => a.id == i) ∘ g) = fun a => a.id == i := by
    funext a
    simp [Function.comp, hg]
  rw [hp]

theorem find?_id_of_mem_nodup {l : List Atom} (hd : (l.map Atom.id).Nodup)
    {a : Atom} (ha : a ∈ l) :
    l.find? (fun x => x.id == a.id) = some a := by
  induction l with
  | nil => cases ha
  | cons b t ih =>
    rw [List.map_cons, List.nodup_cons] at hd
    rcases List.mem_cons.mp ha with rfl | hat
    · simp [List.find?]
    · have hbne : (b.id == a.id) = false := by
        simp only [beq_eq_false_iff_ne, ne_eq]
        intro e
        exact hd.1 (e ▸ List.mem_map_of_mem Atom.id hat)
      rw [List.find?_cons_of_neg _ (by simp [hbne])]
      exact ih hd.2 hat

theorem GetAtom_of_mem_nodup {s : AtomSpace}
    (hd : (s.atoms.map Atom.id).Nodup) {a : Atom} (ha : a ∈ s.atoms) :
    s.GetAtom a.id = some a :=
  find?_id_of_mem_nodup hd ha

theorem not_mem_of_nodup_append_cons {α : Type} {x : α} {L1 L2 : List α}
    (h : (L1 ++ x :: L2).Nodup) : x ∉ L1 ∧ x ∉ L2 := by
  have h' := List.nodup_append.mp h
  refine ⟨fun hx => ?_, (List.nodup_cons.mp h'.2.1).1⟩
  exact h'.2.2 hx (List.mem_cons_self x L2)

theorem eq_of_mem_id_nodup {l : List Atom} (hd : (l.map Atom.id).Nodup)
    {a b : Atom} (ha : a ∈ l) (hb : b ∈ l) (heq : a.id = b.id) : a = b := by
  have h1 := find?_id_of_mem_nodup hd ha
  have h2 := find?_id_of_mem_nodup hd hb
  rw [heq] at h1
  exact Option.some.inj (h1.symm.trans h2)

theorem ne_ids_of_nodup_split {l R1 R2 : List Atom} {c : Atom}
    (hd : (l.map Atom.id).Nodup) (hsp : l = R1 ++ c :: R2) :
    (∀ r ∈ R1, r.id ≠ c.id) ∧ (∀ r ∈ R2, r.id ≠ c.id) := by
  subst hsp
  rw [List.map_append, List.map_cons] at hd
  have h := not_mem_of_nodup_append_cons hd
  constructor
  · intro r hr e
    exact h.1 (e ▸ List.mem_map_of_mem Atom.id hr)
  · intro r hr e
    exact h.2 (e ▸ List.mem_map_of_mem Atom.id hr)

theorem foldl_ModifyAtom_GetAtom_ne (R : List Atom) (f : Atom → Atom)
    (hf : ∀ a, (f a).id = a.id) (s : AtomSpace) (i : Nat)
    (hR : ∀ r ∈ R, r.id ≠ i) :
    (R.foldl (fun st r => st.ModifyAtom r.id f) s).GetAtom i
      = s.GetAtom i := by
  induction R generalizing s with
  | nil => rfl
  | cons r t ih =>
    rw [List.foldl_cons,
      ih (s.ModifyAtom r.id f) (fun x hx => hR x (List.mem_cons_of_mem _ hx))]
    exact GetAtom_ModifyAtom_ne s r.id f hf i
      (Ne.symm (hR r (List.mem_cons_self r t)))

theorem foldl_ModifyAtom_GetAtom_hit (R1 : List Atom) (c : Atom)
    (R2 : List Atom) (f : Atom → Atom) (hf : ∀ a, (f a).id = a.id)
    (s : AtomSpace) (h1 : ∀ r ∈ R1, r.id ≠ c.id)
    (h2 : ∀ r ∈ R2, r.id ≠ c.id) {a : Atom}
    (ha : s.GetAtom c.id = some a) :
    ((R1 ++ c :: R2).foldl (fun st r => st.ModifyAtom r.id f) s).GetAtom c.id
      = some (f a) := by
  rw [List.foldl_append, List.foldl_cons,
    foldl_ModifyAtom_GetAtom_ne R2 f hf _ c.id h2]
  refine GetAtom_ModifyAtom_self _ c.id f hf ?_
  rw [foldl_ModifyAtom_GetAtom_ne R1 f hf s c.id h1]
  exact ha

theorem spreadFold_atoms (targets : List Nat) (sp : ℚ) (s : AtomSpace) :
    (spreadFold s targets sp).atoms
      = s.atoms.map (fun a => a.SetAttention
          (a.attention + sp * (targets.count a.id : ℚ))) := by
  induction targets generalizing s with
  | nil =>
    simp [spreadFold, SetAttention_self]
  | cons t ts ih =>
    show (spreadFold (s.ModifyAtom t
      (fun b => b.SetAttention (b.attention + sp))) ts sp).atoms = _
    rw [ih]
    show (s.atoms.map _).map _ = _
    rw [List.map_map]
    congr 1
    funext a
    by_cases h : a.id = t
    · simp only [Function.comp, h, if_pos]
      show Atom.SetAttention _ _ = Atom.SetAttention _ _
      unfold Atom.SetAttention
      simp [List.count_cons, h]
      ring
    · simp only [Function.comp, if_neg h]
      show Atom.SetAttention _ _ = Atom.SetAttention _ _
      unfold Atom.SetAttention
      simp [List.count_cons, h]

theorem attentionStep_of_none {s : AtomSpace} {j : Nat}
    (hj : s.GetAtom j = none) : attentionStep s j = s := by
  unfold attentionStep
  rw [hj]

theorem attentionStep_atoms {s : AtomSpace} {j : Nat} {aj : Atom}
    (hj : s.GetAtom j = some aj) :
    (attentionStep s j).atoms = s.atoms.map (stepFun aj j) := by
  unfold attentionStep
  rw [hj]
  by_cases he : aj.outgoingLinks.isEmpty
  · have hnil : aj.outgoingLinks = [] := List.isEmpty_iff.mp he
    simp only [he, if_true]
    show s.atoms.map _ = _
    congr 1
    funext a
    by_cases h : a.id = j
    · simp [stepFun, h]
    · simp [stepFun, h, hnil, SetAttention_self]
  · simp only [he, if_false]
    show (spreadFold s aj.outgoingLinks _).atoms.map _ = _
    rw [spreadFold_atoms, List.map_map]
    congr 1

theorem attentionStep_GetAtom {s : AtomSpace} {j : Nat} {aj : Atom}
    (hj : s.GetAtom j = some aj) (i : Nat) :
    (attentionStep s j).GetAtom i = (s.GetAtom i).map (stepFun aj j) := by
  show (attentionStep s j).atoms.find? _ = _
  rw [attentionStep_atoms hj]
  exact find?_map_idpres _ _ (stepFun_id aj j) i

theorem attentionStep_nonneg {s : AtomSpace}
    (h : ∀ a ∈ s.atoms, 0 ≤ a.attention) (j : Nat) :
    ∀ a ∈ (attentionStep s j).atoms, 0 ≤ a.attention := by
  cases hj : s.GetAtom j with
  | none =>
    rw [attentionStep_of_none hj]
    exact h
  | some aj =>
    intro a ha
    rw [attentionStep_atoms hj] at ha
    obtain ⟨b, hb, rfl⟩ := List.mem_map.mp ha
    have hbnn := h b hb
    have hajnn := h aj (GetAtom_mem hj)
    unfold stepFun
    by_cases hid : b.id = j
    · rw [if_pos hid, SetAttention_attention]
      exact le_trans (by norm_num) (le_max_left (1/100) _)
    · rw [if_neg hid, SetAttention_attention]
      have hspr : 0 ≤ aj.attention * (1/10) / (aj.outgoingLinks.length : ℚ)
          * (aj.outgoingLinks.count b.id : ℚ) := by
        apply mul_nonneg
        · apply div_nonneg
          · apply mul_nonneg hajnn
            norm_num
          · exact Nat.cast_nonneg _
        · exact Nat.cast_nonneg _
      linarith

theorem attentionStep_skel (s : AtomSpace) (j : Nat) :
    (attentionStep s j).atoms.map Atom.skel = s.atoms.map Atom.skel := by
  cases hj : s.GetAtom j with
  | none => rw [attentionStep_of_none hj]
  | some aj =>
    rw [attentionStep_atoms hj, List.map_map]
    congr 1
    funext a
    exact stepFun_skel aj j a

theorem foldl_attentionStep_skel (L : List Nat) (s : AtomSpace) :
    ((L.foldl attentionStep s).atoms.map Atom.skel)
      = s.atoms.map Atom.skel := by
  induction L generalizing s with
  | nil => rfl
  | cons j t ih =>
    rw [List.foldl_cons, ih, attentionStep_skel]

theorem foldl_attentionStep_nonneg (L : List Nat) {s : AtomSpace}
    (h : ∀ a ∈ s.atoms, 0 ≤ a.attention) :
    ∀ a ∈ (L.foldl attentionStep s).atoms, 0 ≤ a.attention := by
  induction L generalizing s with
  | nil => exact h
  | cons j t ih => exact ih (attentionStep_nonneg h j)

theorem foldl_attentionStep_mono (L : List Nat) {s : AtomSpace} {i : Nat}
    {a : Atom} (h : ∀ x ∈ s.atoms, 0 ≤ x.attention) (hiL : i ∉ L)
    (ha : s.GetAtom i = some a) :
    ∃ a', (L.foldl attentionStep s).GetAtom i = some a' ∧
      a'.skel = a.skel ∧ a.attention ≤ a'.attention := by
  induction L generalizing s a with
  | nil => exact ⟨a, ha, rfl, le_refl _⟩
  | cons j t ih =>
    have hsplit : i ≠ j ∧ i ∉ t := by
      constructor
      · intro e
        exact hiL (e ▸ List.mem_cons_self j t)
      · intro e
        exact hiL (List.mem_cons_of_mem j e)
    cases hj : s.GetAtom j with
    | none =>
      rw [List.foldl_cons, attentionStep_of_none hj]
      exact ih h hsplit.2 ha
    | some aj =>
      rw [List.foldl_cons]
      have hstep : (attentionStep s j).GetAtom i = some (stepFun aj j a) := by
        rw [attentionStep_GetAtom hj i, ha]
        rfl
      obtain ⟨a', h1, h2, h3⟩ := ih (attentionStep_nonneg h j) hsplit.2 hstep
      refine ⟨a', h1, by rw [h2, stepFun_skel], le_trans ?_ h3⟩
      have hid : a.id = i := GetAtom_id ha
      unfold stepFun
      rw [if_neg (by rw [hid]; exact hsplit.1), SetAttention_attention]
      have hajnn : 0 ≤ aj.attention := h aj (GetAtom_mem hj)
      have hspr : 0 ≤ aj.attention * (1/10) / (aj.outgoingLinks.length : ℚ)
          * (aj.outgoingLinks.count a.id : ℚ) := by
        apply mul_nonneg
        · apply div_nonneg
          · apply mul_nonneg hajnn
            norm_num
          · exact Nat.cast_nonneg _
        · exact Nat.cast_nonneg _
      linarith

theorem foldl_attentionStep_self {s : AtomSpace} {j : Nat} {a : Atom}
    (L1 L2 : List Nat) (h : ∀ x ∈ s.atoms, 0 ≤ x.attention)
    (hj1 : j ∉ L1) (hj2 : j ∉ L2) (ha : s.GetAtom j = some a) :
    ∃ a', ((L1 ++ j :: L2).foldl attentionStep s).GetAtom j = some a' ∧
      a'.skel = a.skel ∧
      max (1/100) (a.attention * (95/100)) ≤ a'.attention := by
  obtain ⟨a1, h1, hsk1, hle1⟩ := foldl_attentionStep_mono L1 h hj1 ha
  rw [List.foldl_append, List.foldl_cons]
  have hnn1 := foldl_attentionStep_nonneg L1 h
  have hstep : (attentionStep (L1.foldl attentionStep s) j).GetAtom j
      = some (stepFun a1 j a1) := by
    rw [attentionStep_GetAtom h1 j, h1]
    rfl
  obtain ⟨a', h2, hsk2, hle2⟩ :=
    foldl_attentionStep_mono L2 (attentionStep_nonneg hnn1 j) hj2 hstep
  refine ⟨a', h2, ?_, ?_⟩
  · rw [hsk2, stepFun_skel, hsk1]
  · have hattst : (stepFun a1 j a1).attention
        = max (1/100) (a1.attention * (95/100)) := by
      unfold stepFun
      rw [if_pos (GetAtom_id h1), SetAttention_attention]
    rw [hattst] at hle2
    calc max (1/100) (a.attention * (95/100))
        ≤ max (1/100) (a1.attention * (95/100)) :=
          max_le_max (le_refl _) (mul_le_mul_of_nonneg_right hle1 (by norm_num))
      _ ≤ a'.attention := hle2

theorem resumeFirstInactive_eq (l1 : List CognitiveAgent)
    (a : CognitiveAgent) (l2 : List CognitiveAgent)
    (h1 : ∀ x ∈ l1, x.state ≠ AgentState.Inactive)
    (ha : a.state = AgentState.Inactive) :
    resumeFirstInactive (l1 ++ a :: l2) = l1 ++ a.Resume :: l2 := by
  induction l1 with
  | nil =>
    show (if a.state == AgentState.Inactive then _ else _) = _
    rw [if_pos (by simp [ha])]
    rfl
  | cons b t ih =>
    have hb : ¬ ((b.state == AgentState.Inactive) = true) := by
      simp [h1 b (List.mem_cons_self b t)]
    show (if b.state == AgentState.Inactive then _ else _) = _
    rw [if_neg hb]
    show b :: resumeFirstInactive (t ++ a :: l2) = (b :: t) ++ a.Resume :: l2
    rw [ih (fun x hx => h1 x (List.mem_cons_of_mem b hx))]
    rfl

theorem resumeFirstInactive_of_none (l : List CognitiveAgent)
    (h : ∀ x ∈ l, x.state ≠ AgentState.Inactive) :
    resumeFirstInactive l = l := by
  induction l with
  | nil => rfl
  | cons b t ih =>
    show (if b.state == AgentState.Inactive then _ else _) = _
    rw [if_neg (by simp [h b (List.mem_cons_self b t)] : ¬ ((b.state == AgentState.Inactive) = true)),
      ih (fun x hx => h x (List.mem_cons_of_mem b hx))]

theorem foldl_updateSystemStep_zero (gs : List Atom) (s : CognitiveSystem)
    (h : ∀ g ∈ gs, g.name ≠ "OptimizePerformance") :
    gs.foldl updateSystemStep s = s := by
  induction gs generalizing s with
  | nil => rfl
  | cons g t ih =>
    rw [List.foldl_cons]
    have hstep : updateSystemStep s g = s := by
      unfold updateSystemStep
      rw [if_neg (by simp [h g (List.mem_cons_self g t)] :
        ¬ ((g.name == "OptimizePerformance") = true))]
    rw [hstep]
    exact ih s (fun x hx => h x (List.mem_cons_of_mem g hx))

theorem foldl_updateSystemStep_one (gs : List Atom) (s : CognitiveSystem)
    (h : (gs.map Atom.name).count "OptimizePerformance" = 1) :
    gs.foldl updateSystemStep s
      = if s.activeAgents < s.totalAgents / 2 then
          { s with agents := resumeFirstInactive s.agents }
        else s := by
  induction gs generalizing s with
  | nil => simp at h
  | cons g t ih =>
    rw [List.map_cons, List.count_cons] at h
    rw [List.foldl_cons]
    by_cases hg : g.name = "OptimizePerformance"
    · have ht0 : (t.map Atom.name).count "OptimizePerformance" = 0 := by
        simp [hg] at h
        omega
      have ht : ∀ x ∈ t, x.name ≠ "OptimizePerformance" := by
        intro x hx e
        have : "OptimizePerformance" ∈ t.map Atom.name :=
          e ▸ List.mem_map_of_mem Atom.name hx
        rw [← List.count_pos_iff] at this
        omega
      have hstep : updateSystemStep s g
          = if s.activeAgents < s.totalAgents / 2 then
              { s with agents := resumeFirstInactive s.agents }
            else s := by
        unfold updateSystemStep
        rw [if_pos (by simp [hg] : (g.name == "OptimizePerformance") = true)]
      rw [hstep]
      by_cases hlt : s.activeAgents < s.totalAgents / 2
      · rw [if_pos hlt]
        exact foldl_updateSystemStep_zero t _ ht
      · rw [if_neg hlt]
        exact foldl_updateSystemStep_zero t _ ht
    · have hstep : updateSystemStep s g = s := by
        unfold updateSystemStep
        rw [if_neg (by simp [hg] :
          ¬ ((g.name == "OptimizePerformance") = true))]
      rw [hstep]
      refine ih s ?_
      have hgf : (g.name == "OptimizePerformance") = false := by simp [hg]
      rw [hgf] at h
      simpa using h

theorem UpdateAttentionValues_typeName (s : AtomSpace) :
    s.UpdateAttentionValues.atoms.map (fun a => (a.type, a.name))
      = s.atoms.map (fun a => (a.type, a.name)) := by
  have h := foldl_attentionStep_skel (s.atoms.map Atom.id) s
  have e : ∀ (l : List Atom), l.map (fun a => (a.type, a.name))
      = (l.map Atom.skel).map (fun t => (t.2.1, t.2.2.1)) := by
    intro l
    rw [List.map_map]
    rfl
  rw [e, show s.UpdateAttentionValues.atoms
    = ((s.atoms.map Atom.id).foldl attentionStep s).atoms from rfl, h, ← e]

theorem filterGoal_names_eq {l1 l2 : List Atom}
    (h : l1.map (fun a => (a.type, a.name))
      = l2.map (fun a => (a.type, a.name))) :
    (l1.filter (fun a => a.type == AtomType.Goal)).map Atom.name
      = (l2.filter (fun a => a.type == AtomType.Goal)).map Atom.name := by
  induction l1 generalizing l2 with
  | nil =>
    cases l2 with
    | nil => rfl
    | cons b t2 => simp at h
  | cons a t ih =>
    cases l2 with
    | nil => simp at h
    | cons b t2 =>
      rw [List.map_cons, List.map_cons] at h
      have h1 := List.head_eq_of_cons_eq h
      have h2 := List.tail_eq_of_cons_eq h
      have hty : a.type = b.type := congrArg Prod.fst h1
      have hnm : a.name = b.name := congrArg (fun p => p.2) h1
      rw [List.filter_cons, List.filter_cons, hty]
      by_cases hc : (b.type == AtomType.Goal) = true
      · rw [if_pos hc, if_pos hc, List.map_cons, List.map_cons, hnm,
          ih h2]
      · rw [if_neg hc, if_neg hc, ih h2]

theorem UpdateSystem_agents (sys : CognitiveSystem)
    (hinit : sys.initialized = true)
    (hocc : ((sys.space.atoms.filter
        (fun a => a.type == AtomType.Goal)).map
          Atom.name).count "OptimizePerformance" = 1) :
    sys.UpdateSystem.agents
      = if sys.activeAgents < sys.totalAgents / 2 then
          resumeFirstInactive sys.agents
        else sys.agents := by
  have e : sys.UpdateSystem
      = (sys.space.UpdateAttentionValues.FindAtomsByType
          AtomType.Goal).foldl updateSystemStep
            { sys with space := sys.space.UpdateAttentionValues } := by
    unfold CognitiveSystem.UpdateSystem
    rw [hinit]
    rfl
  have hocc' : ((sys.space.UpdateAttentionValues.FindAtomsByType
      AtomType.Goal).map Atom.name).count "OptimizePerformance" = 1 := by
    show (((sys.space.UpdateAttentionValues.atoms.filter
      (fun a => a.type == AtomType.Goal)).map
        Atom.name).count "OptimizePerformance") = 1
    rw [filterGoal_names_eq (UpdateAttentionValues_typeName sys.space)]
    exact hocc
  rw [e, foldl_updateSystemStep_one _ _ hocc']
  by_cases hlt : sys.activeAgents < sys.totalAgents / 2
  · rw [if_pos hlt, if_pos (show ({ sys with
      space := sys.space.UpdateAttentionValues } :
        CognitiveSystem).activeAgents
      < ({ sys with space := sys.space.UpdateAttentionValues } :
        CognitiveSystem).totalAgents / 2 from hlt)]
  · rw [if_neg hlt, if_neg (show ¬ (({ sys with
      space := sys.space.UpdateAttentionValues } :
        CognitiveSystem).activeAgents
      < ({ sys with space := sys.space.UpdateAttentionValues } :
        CognitiveSystem).totalAgents / 2) from hlt)]

/-! ## Claim theorems -/

/-- C9: a freshly constructed graph store already contains exactly three
Concept-typed atoms named `"Self"`, `"System"` and `"WSL"`: its count is 3,
each of the three names is findable, and every atom it holds is one of
those three Concepts. -/
theorem c9_initial_atomspace :
    AtomSpace.init.GetAtomCount = 3 ∧
    (AtomSpace.init.FindAtom "Self").isSome = true ∧
    (AtomSpace.init.FindAtom "System").isSome = true ∧
    (AtomSpace.init.FindAtom "WSL").isSome = true ∧
    ∀ a ∈ AtomSpace.init.atoms,
      a.type = AtomType.Concept ∧
        (a.name = "Self" ∨ a.name = "System" ∨ a.name = "WSL") := by
  decide

/-- C1: on a name not yet bound, `CreateAtom(t1,n,v1,c1)` followed by
`CreateAtom(t2,n,v2,c2)` returns the identical atom both times, the second
call changes nothing (get-if-exists, not update-if-exists), and the atom's
truth and confidence are the first call's `v1, c1`. -/
theorem c1_idempotent_creation (s : AtomSpace) (t1 t2 : AtomType)
    (n : String) (v1 c1 v2 c2 : ℚ) (hfresh : s.FindAtom n = none) :
    ((s.CreateAtom t1 n v1 c1).2.CreateAtom t2 n v2 c2).1
        = (s.CreateAtom t1 n v1 c1).1 ∧
    ((s.CreateAtom t1 n v1 c1).2.CreateAtom t2 n v2 c2).2
        = (s.CreateAtom t1 n v1 c1).2 ∧
    (s.CreateAtom t1 n v1 c1).1.truthValue = v1 ∧
    (s.CreateAtom t1 n v1 c1).1.confidence = c1 := by
  have e1 : s.CreateAtom t1 n v1 c1
      = (mkAtom s.nextId t1 n v1 c1,
         { atoms := s.atoms ++ [mkAtom s.nextId t1 n v1 c1],
           nextId := s.nextId + 1 }) := by
    simp [AtomSpace.CreateAtom, hfresh]
  have h0 : s.atoms.find? (fun a => a.name == n) = none := hfresh
  have e2 : ({ atoms := s.atoms ++ [mkAtom s.nextId t1 n v1 c1],
               nextId := s.nextId + 1 } : AtomSpace).FindAtom n
      = some (mkAtom s.nextId t1 n v1 c1) := by
    simp [AtomSpace.FindAtom, List.find?_append, h0, mkAtom]
  rw [e1]
  simp only [AtomSpace.CreateAtom, e2]
  exact ⟨trivial, trivial, rfl, rfl⟩

/-- C1 witness: concrete instantiation on the fresh name `"A"`. -/
theorem c1_witness :
    ((AtomSpace.init.CreateAtom AtomType.Concept "A" (1/4) (3/4)).2.CreateAtom
        AtomType.Goal "A" (1/8) (1/8)).1
      = (AtomSpace.init.CreateAtom AtomType.Concept "A" (1/4) (3/4)).1 ∧
    ((AtomSpace.init.CreateAtom AtomType.Concept "A" (1/4) (3/4)).2.CreateAtom
        AtomType.Goal "A" (1/8) (1/8)).2
      = (AtomSpace.init.CreateAtom AtomType.Concept "A" (1/4) (3/4)).2 ∧
    (AtomSpace.init.CreateAtom AtomType.Concept "A" (1/4) (3/4)).1.truthValue
      = 1/4 ∧
    (AtomSpace.init.CreateAtom AtomType.Concept "A" (1/4) (3/4)).1.confidence
      = 3/4 :=
  c1_idempotent_creation AtomSpace.init AtomType.Concept AtomType.Goal "A"
    (1/4) (3/4) (1/8) (1/8) (by decide)

/-- C2 counterexample: `SetAttention` stores the supplied value unchanged,
so setting `0.005` leaves an attention strictly below the supposed `0.01`
floor. -/
theorem c2_counterexample :
    ((mkAtom 1 AtomType.Concept "A" 1 1).SetAttention (1/200)).attention
      = 1/200 ∧
    ¬ ((1:ℚ)/100
        ≤ ((mkAtom 1 AtomType.Concept "A" 1 1).SetAttention (1/200)).attention) := by
  constructor
  · rfl
  · show ¬ ((1:ℚ)/100 ≤ 1/200)
    norm_num

/-- C2 (amended): a bare `SetAttention` call stores the supplied value
unchanged — the `0.01` floor is not applied there (see the
counterexample); the floor holds only after a full `UpdateAttentionValues`
pass, and only from a pass-start state whose attentions are all
nonnegative (so that every spread contribution is nonnegative): then
every node's attention ends at least `0.01`. -/
theorem c2_attention_floor (s : AtomSpace)
    (hn : ∀ x ∈ s.atoms, 0 ≤ x.attention)
    (hd : (s.atoms.map Atom.id).Nodup) :
    (∀ (a : Atom) (v : ℚ), (a.SetAttention v).attention = v) ∧
    ∀ a ∈ s.atoms, ∃ a', s.UpdateAttentionValues.GetAtom a.id = some a' ∧
      1/100 ≤ a'.attention := by
  refine ⟨fun a v => rfl, ?_⟩
  intro a ha
  have hia : a.id ∈ s.atoms.map Atom.id := List.mem_map_of_mem Atom.id ha
  obtain ⟨L1, L2, hsplit⟩ := List.append_of_mem hia
  have hnm := not_mem_of_nodup_append_cons (hsplit ▸ hd)
  have hget : s.GetAtom a.id = some a := GetAtom_of_mem_nodup hd ha
  unfold AtomSpace.UpdateAttentionValues
  rw [hsplit]
  obtain ⟨a', h1, _, h3⟩ := foldl_attentionStep_self L1 L2 hn hnm.1 hnm.2 hget
  exact ⟨a', h1, le_trans (le_max_left _ _) h3⟩

/-- C2 witness: the floor theorem applied to the concrete two-atom space
`spaceAB`. -/
theorem c2_witness :
    (∀ (a : Atom) (v : ℚ), (a.SetAttention v).attention = v) ∧
    ∀ a ∈ spaceAB.atoms, ∃ a',
      spaceAB.UpdateAttentionValues.GetAtom a.id = some a' ∧
      1/100 ≤ a'.attention :=
  c2_attention_floor spaceAB
    (by
      intro x hx
      simp only [spaceAB, List.mem_cons, List.not_mem_nil, or_false] at hx
      rcases hx with rfl | rfl <;> norm_num [atomA, atomB])
    (by decide)

/-- Bound on the spread received by `B` during the iteration that
processes `A`: provided `A`'s tracked atom `a1` still carries `A`'s links
and at least `A`'s initial attention, `B`'s attention grows by at least
`A`'s initial spread fraction. -/
theorem attentionStep_spread_bound {s1 : AtomSpace} {A B a1 b1 : Atom}
    (hn1 : ∀ x ∈ s1.atoms, 0 ≤ x.attention)
    (hA1 : s1.GetAtom A.id = some a1) (hB1 : s1.GetAtom B.id = some b1)
    (hskA : a1.skel = A.skel) (hattA : A.attention ≤ a1.attention)
    (hAB : A.id ≠ B.id) (hlink : B.id ∈ A.outgoingLinks) :
    (attentionStep s1 A.id).GetAtom B.id = some (stepFun a1 A.id b1) ∧
    b1.attention + A.attention * (1/10) / (A.outgoingLinks.length : ℚ)
      ≤ (stepFun a1 A.id b1).attention := by
  constructor
  · rw [attentionStep_GetAtom hA1 B.id, hB1]
    rfl
  · have hidb : b1.id = B.id := GetAtom_id hB1
    have hout : a1.outgoingLinks = A.outgoingLinks :=
      congrArg (fun t => t.2.2.2.1) hskA
    unfold stepFun
    rw [if_neg (by rw [hidb]; exact Ne.symm hAB), SetAttention_attention, hout,
      hidb]
    have hlen : 0 < (A.outgoingLinks.length : ℚ) := by
      have : 0 < A.outgoingLinks.length :=
        List.length_pos.mpr (List.ne_nil_of_mem hlink)
      exact_mod_cast this
    have hcnt : (1:ℚ) ≤ (A.outgoingLinks.count B.id : ℚ) := by
      have : A.outgoingLinks.count B.id ≠ 0 := by
        simp [List.count_eq_zero, hlink]
      exact_mod_cast Nat.one_le_iff_ne_zero.mpr this
    have ha1nn : 0 ≤ a1.attention := hn1 a1 (GetAtom_mem hA1)
    have h1 : A.attention * (1/10) / (A.outgoingLinks.length : ℚ)
        ≤ a1.attention * (1/10) / (A.outgoingLinks.length : ℚ) := by
      gcongr
    have hnn : 0 ≤ a1.attention * (1/10) / (A.outgoingLinks.length : ℚ) :=
      div_nonneg (mul_nonneg ha1nn (by norm_num)) (le_of_lt hlen)
    have h2 : a1.attention * (1/10) / (A.outgoingLinks.length : ℚ)
        ≤ a1.attention * (1/10) / (A.outgoingLinks.length : ℚ)
            * (A.outgoingLinks.count B.id : ℚ) :=
      le_mul_of_one_le_right hnn hcnt
    linarith

/-- C4 (amended): with all pass-start attentions nonnegative and `A ≠ B`,
after one pass `B`'s attention is at least
`0.95 * (b + a*0.10/outgoingCount(A))`; hence it strictly exceeds
`0.95 * b` whenever `a > 0` (nonzero spread fraction) — but it need not
exceed `b` itself, because `B`'s own decay still applies (see the
counterexample). -/
theorem c4_spread_lower_bound (s : AtomSpace) (A B : Atom)
    (hn : ∀ x ∈ s.atoms, 0 ≤ x.attention)
    (hd : (s.atoms.map Atom.id).Nodup)
    (hA : s.GetAtom A.id = some A) (hB : s.GetAtom B.id = some B)
    (hAB : A.id ≠ B.id) (hlink : B.id ∈ A.outgoingLinks) :
    ∃ b', s.UpdateAttentionValues.GetAtom B.id = some b' ∧
      (95/100) * (B.attention
        + A.attention * (1/10) / (A.outgoingLinks.length : ℚ))
          ≤ b'.attention ∧
      (0 < A.attention → (95/100) * B.attention < b'.attention) := by
  have hlen : 0 < (A.outgoingLinks.length : ℚ) := by
    have : 0 < A.outgoingLinks.length :=
      List.length_pos.mpr (List.ne_nil_of_mem hlink)
    exact_mod_cast this
  have hAnn : 0 ≤ A.attention := hn A (GetAtom_mem hA)
  have hsAnn : 0 ≤ A.attention * (1/10) / (A.outgoingLinks.length : ℚ) :=
    div_nonneg (mul_nonneg hAnn (by norm_num)) (le_of_lt hlen)
  have hAmem : A.id ∈ s.atoms.map Atom.id :=
    List.mem_map_of_mem Atom.id (GetAtom_mem hA)
  have hBmem : B.id ∈ s.atoms.map Atom.id :=
    List.mem_map_of_mem Atom.id (GetAtom_mem hB)
  obtain ⟨P, Q, hPQ⟩ := List.append_of_mem hAmem
  have hAnot := not_mem_of_nodup_append_cons (hPQ ▸ hd)
  have hdisj := List.nodup_append.mp (hPQ ▸ hd)
  have hBPQ : B.id ∈ P ∨ B.id ∈ Q := by
    rw [hPQ] at hBmem
    rcases List.mem_append.mp hBmem with h | h
    · exact Or.inl h
    · rcases List.mem_cons.mp h with h' | h'
      · exact absurd h'.symm hAB
      · exact Or.inr h'
  have hfold : s.UpdateAttentionValues
      = Q.foldl attentionStep
          (attentionStep (P.foldl attentionStep s) A.id) := by
    unfold AtomSpace.UpdateAttentionValues
    rw [hPQ, List.foldl_append, List.foldl_cons]
  rcases hBPQ with hBP | hBQ
  · -- B is processed before A: floor first, then receive the spread.
    have hBnotQ : B.id ∉ Q := fun hq =>
      hdisj.2.2 hBP (List.mem_cons_of_mem _ hq)
    obtain ⟨P1, P2, hP⟩ := List.append_of_mem hBP
    have hBnot := not_mem_of_nodup_append_cons (hP ▸ hdisj.1)
    obtain ⟨b2, hb2, hskb2, hmax2⟩ :=
      foldl_attentionStep_self P1 P2 hn hBnot.1 hBnot.2 hB
    rw [← hP] at hb2
    obtain ⟨a1, ha1, hska1, hlea1⟩ :=
      foldl_attentionStep_mono P hn hAnot.1 hA
    have hn1 := foldl_attentionStep_nonneg P hn
    obtain ⟨hB2, hple⟩ :=
      attentionStep_spread_bound hn1 ha1 hb2 hska1 hlea1 hAB hlink
    have hn2 := attentionStep_nonneg hn1 A.id
    obtain ⟨b', hb', hskb', hleb'⟩ :=
      foldl_attentionStep_mono Q hn2 hBnotQ hB2
    rw [hfold]
    refine ⟨b', hb', ?_, ?_⟩
    · have hmaxb : B.attention * (95/100)
          ≤ max (1/100) (B.attention * (95/100)) := le_max_right _ _
      nlinarith [hmax2, hple, hleb', hsAnn]
    · intro hApos
      have hsApos : 0 < A.attention * (1/10) / (A.outgoingLinks.length : ℚ) :=
        div_pos (mul_pos hApos (by norm_num)) hlen
      have hmaxb : B.attention * (95/100)
          ≤ max (1/100) (B.attention * (95/100)) := le_max_right _ _
      nlinarith [hmax2, hple, hleb', hsApos]
  · -- B is processed after A: receive the spread first, then decay.
    have hBnotP : B.id ∉ P := fun hp =>
      hdisj.2.2 hp (List.mem_cons_of_mem _ hBQ)
    obtain ⟨Q1, Q2, hQ⟩ := List.append_of_mem hBQ
    have hQnodup : Q.Nodup := (List.nodup_cons.mp hdisj.2.1).2
    have hBnot := not_mem_of_nodup_append_cons (hQ ▸ hQnodup)
    obtain ⟨a1, ha1, hska1, hlea1⟩ :=
      foldl_attentionStep_mono P hn hAnot.1 hA
    obtain ⟨b1, hb1, hskb1, hleb1⟩ :=
      foldl_attentionStep_mono P hn hBnotP hB
    have hn1 := foldl_attentionStep_nonneg P hn
    obtain ⟨hB2, hple⟩ :=
      attentionStep_spread_bound hn1 ha1 hb1 hska1 hlea1 hAB hlink
    have hn2 := attentionStep_nonneg hn1 A.id
    obtain ⟨b', hb', hskb', hmax'⟩ :=
      foldl_attentionStep_self Q1 Q2 hn2 hBnot.1 hBnot.2 hB2
    rw [hfold, hQ]
    refine ⟨b', hb', ?_, ?_⟩
    · have hstep95 : (stepFun a1 A.id b1).attention * (95/100)
          ≤ max (1/100) ((stepFun a1 A.id b1).attention * (95/100)) :=
        le_max_right _ _
      nlinarith [hmax', hple, hleb1, hstep95]
    · intro hApos
      have hsApos : 0 < A.attention * (1/10) / (A.outgoingLinks.length : ℚ) :=
        div_pos (mul_pos hApos (by norm_num)) hlen
      have hstep95 : (stepFun a1 A.id b1).attention * (95/100)
          ≤ max (1/100) ((stepFun a1 A.id b1).attention * (95/100)) :=
        le_max_right _ _
      nlinarith [hmax', hple, hleb1, hstep95, hsApos]

/-- C4 witness: the amended spread bound applied to the concrete pair
`atomA → atomB`. -/
theorem c4_witness :
    ∃ b', spaceAB.UpdateAttentionValues.GetAtom atomB.id = some b' ∧
      (95/100) * (atomB.attention
        + atomA.attention * (1/10) / (atomA.outgoingLinks.length : ℚ))
          ≤ b'.attention ∧
      (0 < atomA.attention → (95/100) * atomB.attention < b'.attention) :=
  c4_spread_lower_bound spaceAB atomA atomB
    (by
      intro x hx
      simp only [spaceAB, List.mem_cons, List.not_mem_nil, or_false] at hx
      rcases hx with rfl | rfl <;> norm_num [atomA, atomB])
    (by decide) rfl rfl (by decide) (by decide)

/-- C4 counterexample: for `atomA` (attention `0.1`, one outgoing link to
`atomB`) and `atomB` (attention `1`), the spread fraction `0.01` is
nonzero and `A`'s attention is positive, yet after one pass `B`'s
attention is `0.9595 < 1`: it is not strictly greater than `b`. -/
theorem c4_counterexample :
    0 < atomA.attention ∧
    atomA.attention * (1/10) / (atomA.outgoingLinks.length : ℚ) ≠ 0 ∧
    ∃ b', spaceAB.UpdateAttentionValues.GetAtom 2 = some b' ∧
      b'.attention = 1919/2000 ∧ ¬ (atomB.attention < b'.attention) := by
  have e0 : spaceAB.GetAtom 1 = some atomA := rfl
  have e0' : spaceAB.GetAtom 2 = some atomB := rfl
  have e1 : (attentionStep spaceAB 1).GetAtom 2
      = some (stepFun atomA 1 atomB) := by
    rw [attentionStep_GetAtom e0 2, e0']
    rfl
  have efold : spaceAB.UpdateAttentionValues
      = attentionStep (attentionStep spaceAB 1) 2 := rfl
  have e2 : spaceAB.UpdateAttentionValues.GetAtom 2
      = some (stepFun (stepFun atomA 1 atomB) 2 (stepFun atomA 1 atomB)) := by
    rw [efold, attentionStep_GetAtom e1 2, e1]
    rfl
  have v1 : (stepFun atomA 1 atomB).attention = 101/100 := by
    rw [stepFun_other_att atomA 1 atomB (by decide)]
    norm_num [atomA, atomB, List.count_cons]
  have hid1 : (stepFun atomA 1 atomB).id = 2 := by
    rw [stepFun_id]
    rfl
  have v2 : (stepFun (stepFun atomA 1 atomB) 2
      (stepFun atomA 1 atomB)).attention = 1919/2000 := by
    rw [stepFun_self_att _ 2 _ hid1, v1,
      max_eq_right (by norm_num : (1:ℚ)/100 ≤ 101/100 * (95/100))]
    norm_num
  refine ⟨by norm_num [atomA], by norm_num [atomA], _, e2, v2, ?_⟩
  rw [v2]
  norm_num [atomB]

/-- C5 (amended): the memory list can exceed 1000 entries (see the
counterexample); what `Learn` guarantees is only the trim itself: when the
stage observes more than 1000 entries it removes exactly the 100 oldest,
keeping the remainder in order, and otherwise it leaves the list
untouched. -/
theorem c5_learn_trim (s : AtomSpace) (ag : CognitiveAgent) :
    (1000 < ag.memories.length →
      (CognitiveAgent.Learn s ag).2.memories = ag.memories.drop 100) ∧
    (ag.memories.length ≤ 1000 →
      (CognitiveAgent.Learn s ag).2.memories = ag.memories) := by
  unfold CognitiveAgent.Learn
  constructor
  · intro h
    simp [h]
  · intro h
    simp [Nat.not_lt.mpr h]

/-- C5 witness: an agent holding 1001 memories is trimmed to its 901
newest. -/
theorem c5_witness :
    (CognitiveAgent.Learn AtomSpace.init agentWithManyMemories).2.memories
      = agentWithManyMemories.memories.drop 100 :=
  (c5_learn_trim AtomSpace.init agentWithManyMemories).1 (by
    show 1000 < (List.replicate 1001 (0:Nat)).length
    rw [List.length_replicate]
    norm_num)

/-- C5 counterexample: 1001 message deliveries leave a reachable agent
state whose memory list holds 1001 > 1000 entries, refuting the
never-exceeds-1000 invariant. -/
theorem c5_counterexample :
    1000 < ((msgPump^[1001])
        (AtomSpace.init,
          (CognitiveAgent.construct AtomSpace.init "A").2)).2.memories.length := by
  rw [msgPump_iterate_length]
  norm_num [CognitiveAgent.construct]

theorem plan_eval (v c : ℚ) (hv : v < 8/10) :
    CognitiveAgent.Plan (spaceWithGoal v c) agentWithGoal
      = AtomSpace.mk
          [Atom.mk 1 AtomType.Concept "Self" 1 1 (1/2) [] [],
           Atom.mk 2 AtomType.Concept "System" 1 1 (1/2) [] [],
           Atom.mk 3 AtomType.Concept "WSL" 1 1 (1/2) [] [],
           Atom.mk 4 AtomType.Goal "G" v c (1/2) [5] [],
           Atom.mk 5 AtomType.Process "Plan:G" (1/2) (8/10) (1/2) [] []] 6 := by
  show List.foldl _ (spaceWithGoal v c) [4] = _
  simp only [List.foldl_cons, List.foldl_nil]
  have hg : (spaceWithGoal v c).GetAtom 4
      = some (mkAtom 4 AtomType.Goal "G" v c) := rfl
  simp only [hg]
  have hv' : (mkAtom 4 AtomType.Goal "G" v c).truthValue < 8/10 := hv
  rw [if_pos hv']
  rfl

theorem planActSpace_eval (v c : ℚ) (hv : v < 8/10) :
    planActSpace v c
      = (AtomSpace.mk
          [Atom.mk 1 AtomType.Concept "Self" 1 1 (1/2) [] [],
           Atom.mk 2 AtomType.Concept "System" 1 1 (1/2) [] [],
           Atom.mk 3 AtomType.Concept "WSL" 1 1 (1/2) [] [],
           Atom.mk 4 AtomType.Goal "G" v c (1/2) [5] [],
           Atom.mk 5 AtomType.Process "Plan:G" (1/2) (8/10) (1/2) [] []] 6).ModifyAtom 5
          (fun p => p.SetTruthValue (p.truthValue + 1/10) p.confidence) := by
  show CognitiveAgent.Act (CognitiveAgent.Plan (spaceWithGoal v c) agentWithGoal) = _
  rw [plan_eval v c hv]
  show List.foldl actStep _ [5] = _
  simp only [List.foldl_cons, List.foldl_nil]
  have hp : (AtomSpace.mk
      [Atom.mk 1 AtomType.Concept "Self" 1 1 (1/2) [] [],
       Atom.mk 2 AtomType.Concept "System" 1 1 (1/2) [] [],
       Atom.mk 3 AtomType.Concept "WSL" 1 1 (1/2) [] [],
       Atom.mk 4 AtomType.Goal "G" v c (1/2) [5] [],
       Atom.mk 5 AtomType.Process "Plan:G" (1/2) (8/10) (1/2) [] []] 6).GetAtom 5
      = some (Atom.mk 5 AtomType.Process "Plan:G" (1/2) (8/10) (1/2) [] []) := by
    unfold AtomSpace.GetAtom
    simp only [List.find?]
    rfl
  unfold actStep
  simp only [hp]
  have hcond : (((Atom.mk 5 AtomType.Process "Plan:G" (1/2) (8/10) (1/2)
        [] []).name.take 5 == "Plan:")
      && decide ((Atom.mk 5 AtomType.Process "Plan:G" (1/2) (8/10) (1/2)
        [] []).truthValue > 4/10)) = true := by
    rw [decide_eq_true
      (show (Atom.mk 5 AtomType.Process "Plan:G" (1/2) (8/10) (1/2)
        [] []).truthValue > 4/10 by show (4:ℚ)/10 < 1/2; norm_num)]
    decide
  rw [if_pos hcond]
  rfl

/-- C3 (amended): Plan on a goal with truth below `0.8` creates the
Process atom `"Plan:" ++ name` at truth `0.5` / confidence `0.8` and adds
it to the goal's outgoing links only — the plan's incoming-link list stays
empty; a subsequent Act therefore bumps the plan's truth to `0.6` but
leaves the goal's truth unchanged at `v`, because the goal-boost loop
ranges over the plan's (empty) incoming links. -/
theorem c3_plan_act_no_boost (v c : ℚ) (hv : v < 8/10) :
    (∃ g', (planActSpace v c).GetAtom 4 = some g' ∧
      g'.truthValue = v ∧ g'.outgoingLinks = [5]) ∧
    (∃ p', (planActSpace v c).GetAtom 5 = some p' ∧
      p'.name = "Plan:G" ∧ p'.truthValue = 3/5 ∧ p'.incomingLinks = []) := by
  rw [planActSpace_eval v c hv]
  constructor
  · refine ⟨Atom.mk 4 AtomType.Goal "G" v c (1/2) [5] [], ?_, rfl, rfl⟩
    rw [GetAtom_ModifyAtom_ne _ 5
      (fun p => p.SetTruthValue (p.truthValue + 1/10) p.confidence)
      (fun a => rfl) 4 (by decide)]
    rfl
  · refine ⟨(Atom.mk 5 AtomType.Process "Plan:G" (1/2) (8/10) (1/2)
      [] []).SetTruthValue ((1/2 : ℚ) + 1/10) (8/10), ?_, rfl, ?_, rfl⟩
    · exact GetAtom_ModifyAtom_self _ 5
        (fun p => p.SetTruthValue (p.truthValue + 1/10) p.confidence)
        (fun a => rfl) rfl
    · show min (max ((1:ℚ)/2 + 1/10) 0) 1 = 3/5
      rw [max_eq_left (by norm_num), min_eq_left (by norm_num)]
      norm_num

/-- C3 witness: the amended Plan-then-Act behavior at the concrete goal
truth `0.5` / confidence `0.9`. -/
theorem c3_witness :
    (∃ g', (planActSpace (1/2) (9/10)).GetAtom 4 = some g' ∧
      g'.truthValue = 1/2 ∧ g'.outgoingLinks = [5]) ∧
    (∃ p', (planActSpace (1/2) (9/10)).GetAtom 5 = some p' ∧
      p'.name = "Plan:G" ∧ p'.truthValue = 3/5 ∧ p'.incomingLinks = []) :=
  c3_plan_act_no_boost (1/2) (9/10) (by norm_num)

/-- C3 counterexample: starting from a goal `"G"` at truth `0.5`, a Plan
stage followed by an Act stage does run the plan (its truth rises to
`0.6`) but the goal's truth stays `0.5` — it is not increased by `0.05`,
because the goal never becomes an incoming link of the plan. -/
theorem c3_counterexample :
    ∃ g', (planActSpace (1/2) (9/10)).GetAtom 4 = some g' ∧
      g'.truthValue = 1/2 ∧ g'.truthValue ≠ 1/2 + 1/20 ∧
      ∃ p', (planActSpace (1/2) (9/10)).GetAtom 5 = some p' ∧
        p'.name = "Plan:G" ∧ p'.truthValue = 3/5 := by
  rw [planActSpace_eval (1/2) (9/10) (by norm_num)]
  refine ⟨Atom.mk 4 AtomType.Goal "G" (1/2) (9/10) (1/2) [5] [],
    ?_, rfl, by norm_num, ?_⟩
  · rw [GetAtom_ModifyAtom_ne _ 5
      (fun p => p.SetTruthValue (p.truthValue + 1/10) p.confidence)
      (fun a => rfl) 4 (by decide)]
    rfl
  · refine ⟨(Atom.mk 5 AtomType.Process "Plan:G" (1/2) (8/10) (1/2)
      [] []).SetTruthValue ((1/2 : ℚ) + 1/10) (8/10), ?_, rfl, ?_⟩
    · exact GetAtom_ModifyAtom_self _ 5
        (fun p => p.SetTruthValue (p.truthValue + 1/10) p.confidence)
        (fun a => rfl) rfl
    · show min (max ((1:ℚ)/2 + 1/10) 0) 1 = 3/5
      rw [max_eq_left (by norm_num), min_eq_left (by norm_num)]
      norm_num

/-- C6: one Reason iteration for a memory reference drops the first 9
characters of the memory's name (the colon of the 10-character
`"Perceived:"` tag stays in the remainder) and searches that remainder as
a substring of Concept names; every matching Concept's truth becomes the
arithmetic mean of its current truth and the memory's truth and its
confidence becomes `min(1, confidence * 1.1)` (for in-range scalars, as
the data model guarantees), while non-matching Concepts are untouched. -/
theorem c6_reason_blend (s : AtomSpace) (memoryId : Nat) (memory c : Atom)
    (hd : (s.atoms.map Atom.id).Nodup)
    (hm : s.GetAtom memoryId = some memory)
    (hc : c ∈ s.atoms) (hct : c.type = AtomType.Concept)
    (h0t : 0 ≤ c.truthValue) (h1t : c.truthValue ≤ 1)
    (h0m : 0 ≤ memory.truthValue) (h1m : memory.truthValue ≤ 1)
    (h0c : 0 ≤ c.confidence) :
    (strContains c.name.data ((memory.name.drop 9)).data = true →
      ∃ c', (reasonStep s memoryId).GetAtom c.id = some c' ∧
        c'.truthValue = (c.truthValue + memory.truthValue) / 2 ∧
        c'.confidence = min 1 (c.confidence * (11/10))) ∧
    (strContains c.name.data ((memory.name.drop 9)).data = false →
      (reasonStep s memoryId).GetAtom c.id = some c) := by
  have hgetc : s.GetAtom c.id = some c := GetAtom_of_mem_nodup hd hc
  simp only [reasonStep, hm]
  constructor
  · intro hmat
    have hpc : (fun a => a.type == AtomType.Concept
        && strContains a.name.data ((memory.name.drop 9)).data) c = true := by
      show (c.type == AtomType.Concept
        && strContains c.name.data ((memory.name.drop 9)).data) = true
      rw [hct]
      simp only [beq_self_eq_true, Bool.true_and]
      exact hmat
    have hcrel : c ∈ s.Query (fun a => a.type == AtomType.Concept
        && strContains a.name.data ((memory.name.drop 9)).data) :=
      List.mem_filter.mpr ⟨hc, hpc⟩
    have hdrel : ((s.Query (fun a => a.type == AtomType.Concept
        && strContains a.name.data ((memory.name.drop 9)).data)).map
          Atom.id).Nodup :=
      List.Nodup.sublist
        (List.Sublist.map Atom.id (List.filter_sublist s.atoms)) hd
    obtain ⟨R1, R2, hsplit⟩ := List.append_of_mem hcrel
    obtain ⟨hne1, hne2⟩ := ne_ids_of_nodup_split hdrel hsplit
    rw [hsplit]
    refine ⟨c.SetTruthValue ((c.truthValue + memory.truthValue) / 2)
      (c.confidence * (11/10)), ?_, ?_, ?_⟩
    · exact foldl_ModifyAtom_GetAtom_hit R1 c R2
        (fun b => b.SetTruthValue ((b.truthValue + memory.truthValue) / 2)
          (b.confidence * (11/10))) (fun a => rfl) s hne1 hne2 hgetc
    · show min (max ((c.truthValue + memory.truthValue) / 2) 0) 1 = _
      rw [max_eq_left (by linarith), min_eq_left (by linarith)]
    · show min (max (c.confidence * (11/10)) 0) 1 = _
      rw [max_eq_left (mul_nonneg h0c (by norm_num)), min_comm]
  · intro hnomat
    have hall : ∀ r ∈ s.Query (fun a => a.type == AtomType.Concept
        && strContains a.name.data ((memory.name.drop 9)).data),
        r.id ≠ c.id := by
      intro r hr e
      have hrmem : r ∈ s.atoms := (List.mem_filter.mp hr).1
      have hrp := (List.mem_filter.mp hr).2
      rw [eq_of_mem_id_nodup hd hrmem hc e] at hrp
      simp only [hct, beq_self_eq_true, Bool.true_and] at hrp
      rw [hnomat] at hrp
      exact Bool.noConfusion hrp
    rw [foldl_ModifyAtom_GetAtom_ne _
      (fun b => b.SetTruthValue ((b.truthValue + memory.truthValue) / 2)
        (b.confidence * (11/10))) (fun a => rfl) s c.id hall]
    exact hgetc

/-- C6 witness: the Reason blend applied to the concrete space holding the
memory `"Perceived:WSL"` and the Concept `"Sys:WSL"` (whose name contains
the 9-character-stripped remainder `":WSL"`). -/
theorem c6_witness :
    (strContains conceptC6.name.data ((memoryC6.name.drop 9)).data = true →
      ∃ c', (reasonStep spaceC6 77).GetAtom conceptC6.id = some c' ∧
        c'.truthValue = (conceptC6.truthValue + memoryC6.truthValue) / 2 ∧
        c'.confidence = min 1 (conceptC6.confidence * (11/10))) ∧
    (strContains conceptC6.name.data ((memoryC6.name.drop 9)).data = false →
      (reasonStep spaceC6 77).GetAtom conceptC6.id = some conceptC6) :=
  c6_reason_blend spaceC6 77 memoryC6 conceptC6 (by decide) rfl
    (List.mem_cons_self conceptC6 [memoryC6]) rfl
    (by norm_num [conceptC6]) (by norm_num [conceptC6])
    (by norm_num [memoryC6]) (by norm_num [memoryC6])
    (by norm_num [conceptC6])

/-- C7 (amended): on an initialized system holding exactly one Goal atom
named `"OptimizePerformance"`, `UpdateSystem` resumes the first
`Inactive`-state agent in registry order exactly when
`activeAgents < totalAgents / 2` under integer division (not the
mathematical "fewer than half", see the counterexample), and resumes no
agent otherwise; the resumed entry is the first inactive one and every
other entry is unchanged (and nothing changes when no agent is
inactive). -/
theorem c7_update_system_tuning (sys : CognitiveSystem)
    (hinit : sys.initialized = true)
    (hocc : ((sys.space.atoms.filter
        (fun a => a.type == AtomType.Goal)).map
          Atom.name).count "OptimizePerformance" = 1) :
    (sys.activeAgents < sys.totalAgents / 2 →
      sys.UpdateSystem.agents = resumeFirstInactive sys.agents) ∧
    (¬ sys.activeAgents < sys.totalAgents / 2 →
      sys.UpdateSystem.agents = sys.agents) ∧
    (∀ l1 a l2, sys.agents = l1 ++ a :: l2 →
      (∀ x ∈ l1, x.state ≠ AgentState.Inactive) →
      a.state = AgentState.Inactive →
      resumeFirstInactive sys.agents = l1 ++ a.Resume :: l2) ∧
    ((∀ x ∈ sys.agents, x.state ≠ AgentState.Inactive) →
      resumeFirstInactive sys.agents = sys.agents) := by
  refine ⟨?_, ?_, ?_, resumeFirstInactive_of_none sys.agents⟩
  · intro hlt
    rw [UpdateSystem_agents sys hinit hocc, if_pos hlt]
  · intro hlt
    rw [UpdateSystem_agents sys hinit hocc, if_neg hlt]
  · intro l1 a l2 he h1 ha
    rw [he]
    exact resumeFirstInactive_eq l1 a l2 h1 ha

/-- C7 witness: the tuning theorem applied to the concrete initialized
three-agent system `sysC7`. -/
theorem c7_witness :
    (sysC7.activeAgents < sysC7.totalAgents / 2 →
      sysC7.UpdateSystem.agents = resumeFirstInactive sysC7.agents) ∧
    (¬ sysC7.activeAgents < sysC7.totalAgents / 2 →
      sysC7.UpdateSystem.agents = sysC7.agents) ∧
    (∀ l1 a l2, sysC7.agents = l1 ++ a :: l2 →
      (∀ x ∈ l1, x.state ≠ AgentState.Inactive) →
      a.state = AgentState.Inactive →
      resumeFirstInactive sysC7.agents = l1 ++ a.Resume :: l2) ∧
    ((∀ x ∈ sysC7.agents, x.state ≠ AgentState.Inactive) →
      resumeFirstInactive sysC7.agents = sysC7.agents) :=
  c7_update_system_tuning sysC7 rfl (by decide)

/-- C7 counterexample: in `sysC7` one of three agents is active, so fewer
than half of the agents are active in the mathematical sense
(`2*1 < 3`) and an inactive agent exists, yet `UpdateSystem` resumes
nobody: the integer-division threshold `1 < 3 / 2 = 1` fails. -/
theorem c7_counterexample :
    2 * sysC7.activeAgents < sysC7.totalAgents ∧
    (∃ x ∈ sysC7.agents, x.state = AgentState.Inactive) ∧
    sysC7.UpdateSystem.agents = sysC7.agents := by
  refine ⟨by decide, ⟨plainAgent "a2" AgentState.Inactive, by decide, rfl⟩, ?_⟩
  rw [UpdateSystem_agents sysC7 rfl (by decide),
    if_neg (by decide : ¬ sysC7.activeAgents < sysC7.totalAgents / 2)]

/-- C8 (amended): `Perceive` sets the state to `Active`, `Learn` to
`Learning`, `SelfModify` to `SelfModifying`, and each of those is
overwritten by the next state-setting stage; but `Plan` and `Act` never
write the state (the `Planning`/`Executing` values are never entered by the
cycle), so the agent value that enters `Plan` and `Act` in a cycle — the
one `Perceive` produced — carries state `Active`, and a full deterministic
cycle ends in state `Learning`. -/
theorem c8_transient_substates (s s' s'' : AtomSpace)
    (ag ag' ag'' : CognitiveAgent) :
    (CognitiveAgent.Perceive s ag).2.state = AgentState.Active ∧
    (CognitiveAgent.Learn s' ag').2.state = AgentState.Learning ∧
    (CognitiveAgent.SelfModify s'' ag'').2.state = AgentState.SelfModifying ∧
    (cognitiveCycle s ag).2.state = AgentState.Learning :=
  ⟨perceive_state s ag, learn_state s' ag', selfModify_state s'' ag'',
    learn_state _ _⟩

/-- C10: every atom is constructed with attention exactly `0.5` whatever
its type, name, truth and confidence, which is below the Perceive
threshold of `0.7`; and the agent constructor afterwards raises only its
own `"Agent:" ++ name` atom's attention to `1.0`, leaving every
pre-existing atom untouched. -/
theorem c10_constructor_attention (i : Nat) (t : AtomType) (nm : String)
    (tv c : ℚ) (sp : AtomSpace) (agName : String)
    (hfresh : sp.FindAtom ("Agent:" ++ agName) = none)
    (hids : ∀ a ∈ sp.atoms, a.id < sp.nextId) :
    (mkAtom i t nm tv c).attention = 1/2 ∧
    ¬ ((mkAtom i t nm tv c).attention > 7/10) ∧
    (∃ a', (CognitiveAgent.construct sp agName).1.GetAtom sp.nextId = some a' ∧
      a'.name = "Agent:" ++ agName ∧ a'.attention = 1) ∧
    (∀ a ∈ sp.atoms, a ∈ (CognitiveAgent.construct sp agName).1.atoms) := by
  have e1 : sp.CreateAtom AtomType.Agent ("Agent:" ++ agName) 1 1
      = (mkAtom sp.nextId AtomType.Agent ("Agent:" ++ agName) 1 1,
         AtomSpace.mk (sp.atoms ++ [mkAtom sp.nextId AtomType.Agent
           ("Agent:" ++ agName) 1 1]) (sp.nextId + 1)) := by
    simp [AtomSpace.CreateAtom, hfresh]
  have econ : CognitiveAgent.construct sp agName
      = ((AtomSpace.mk (sp.atoms ++ [mkAtom sp.nextId AtomType.Agent
            ("Agent:" ++ agName) 1 1]) (sp.nextId + 1)).ModifyAtom sp.nextId
              (fun a => a.SetAttention 1),
         CognitiveAgent.mk agName AgentState.Inactive false [] []) := by
    unfold CognitiveAgent.construct
    rw [e1]
    rfl
  have hget1 : (AtomSpace.mk (sp.atoms ++ [mkAtom sp.nextId AtomType.Agent
        ("Agent:" ++ agName) 1 1]) (sp.nextId + 1)).GetAtom sp.nextId
      = some (mkAtom sp.nextId AtomType.Agent ("Agent:" ++ agName) 1 1) := by
    unfold AtomSpace.GetAtom
    rw [List.find?_append]
    have h0 : sp.atoms.find? (fun a => a.id == sp.nextId) = none := by
      rw [List.find?_eq_none]
      intro a ha
      have := hids a ha
      simp
      omega
    rw [h0]
    simp [mkAtom]
  refine ⟨rfl, ?_, ?_, ?_⟩
  · show ¬ ((1:ℚ)/2 > 7/10)
    norm_num
  · rw [econ]
    refine ⟨(mkAtom sp.nextId AtomType.Agent ("Agent:" ++ agName) 1 1).SetAttention 1,
      ?_, rfl, rfl⟩
    exact GetAtom_ModifyAtom_self _ sp.nextId (fun a => a.SetAttention 1)
      (fun a => rfl) hget1
  · intro a ha
    rw [econ]
    have hne : ¬ (a.id = sp.nextId) := by
      have := hids a ha
      omega
    have hm := mem_ModifyAtom (s := AtomSpace.mk (sp.atoms ++ [mkAtom sp.nextId
        AtomType.Agent ("Agent:" ++ agName) 1 1]) (sp.nextId + 1)) sp.nextId
      (fun a => a.SetAttention 1) (List.mem_append_left _ ha)
    simpa [hne] using hm

/-- C10 witness: concrete instantiation on the fresh agent name `"A"`
against the initial atom space. -/
theorem c10_witness :
    (mkAtom 9 AtomType.Goal "G" (1/4) (3/4)).attention = 1/2 ∧
    ¬ ((mkAtom 9 AtomType.Goal "G" (1/4) (3/4)).attention > 7/10) ∧
    (∃ a', (CognitiveAgent.construct AtomSpace.init "A").1.GetAtom
        AtomSpace.init.nextId = some a' ∧
      a'.name = "Agent:" ++ "A" ∧ a'.attention = 1) ∧
    (∀ a ∈ AtomSpace.init.atoms,
      a ∈ (CognitiveAgent.construct AtomSpace.init "A").1.atoms) :=
  c10_constructor_attention 9 AtomType.Goal "G" (1/4) (3/4) AtomSpace.init "A"
    (by decide) (by decide)

/-- C8 counterexample: in a concrete cycle the agent value that enters the
`Plan` stage carries state `Active`, not `Planning`. -/
theorem c8_counterexample :
    ¬ ((CognitiveAgent.Perceive AtomSpace.init
          (CognitiveAgent.construct AtomSpace.init "A").2).2.state
        = AgentState.Planning) := by
  rw [perceive_state]
  decide

end Cognitive
